import Mathlib

/-!
Verification development for the standardize-playlist repository.

The audio pipeline lives in standardize-song/process_audio.py.  An
AudioSegment is modelled as a list of per-millisecond frames (one rational
amplitude value per millisecond, so that list length equals the duration in
milliseconds reported by len(segment)).  The chunk-loudness measurement
segment.dBFS is a delegated pydub capability and is therefore a function
parameter of every definition that needs it.
-/

namespace StandardizeSong

/-- A decoded audio buffer: one frame per millisecond. -/
abbrev Audio := List ℚ

instance {ε α : Type} [DecidableEq ε] [DecidableEq α] :
    DecidableEq (Except ε α) := fun a b =>
  match a, b with
  | .ok x, .ok y =>
    if h : x = y then .isTrue (by rw [h]) else .isFalse (by simp [h])
  | .error x, .error y =>
    if h : x = y then .isTrue (by rw [h]) else .isFalse (by simp [h])
  | .ok _, .error _ => .isFalse (by simp)
  | .error _, .ok _ => .isFalse (by simp)

/-- Index normalisation performed by pydub AudioSegment.__getitem__ composed
with _parse_position and the final byte-level Python slice: the index is
first clamped above by the length, a negative value is then interpreted
from the end once, and a value that is still negative is wrapped by the
byte-level slice (one more add of the length, then clamped below at 0). -/
def pydubIdx (len : ℕ) (v : ℤ) : ℕ :=
  let v1 : ℤ := min v (len : ℤ)
  let v2 : ℤ := if v1 < 0 then (len : ℤ) + v1 else v1
  (if v2 < 0 then max ((len : ℤ) + v2) 0 else v2).toNat

/-- The slice sound[a : b] of an AudioSegment, in milliseconds. -/
def pySlice (sound : Audio) (a b : ℤ) : Audio :=
  let s := pydubIdx sound.length a
  let e := pydubIdx sound.length b
  (sound.drop s).take (e - s)

/-- Loop guard of the forward scan in silent_end_ind (process_audio.py lines
93-99): the next chunk is below the threshold and the scan position has not
reached the end of the buffer. -/
def fwdGuard (meas : Audio → ℚ) (sound : Audio) (thr : ℚ) (c t : ℤ) : Prop :=
  meas (pySlice sound t (t + c)) < thr ∧ t < (sound.length : ℤ)

instance (meas : Audio → ℚ) (sound : Audio) (thr : ℚ) (c t : ℤ) :
    Decidable (fwdGuard meas sound thr c t) :=
  inferInstanceAs (Decidable (_ ∧ _))

/-- Loop guard of the backward scan in silent_end_ind (lines 103-107): the
chunk ending at the scan position is below the threshold and the position is
still positive. -/
def bwdGuard (meas : Audio → ℚ) (sound : Audio) (thr : ℚ) (c t : ℤ) : Prop :=
  meas (pySlice sound (t + c) t) < thr ∧ 0 < t

instance (meas : Audio → ℚ) (sound : Audio) (thr : ℚ) (c t : ℤ) :
    Decidable (bwdGuard meas sound thr c t) :=
  inferInstanceAs (Decidable (_ ∧ _))

/-- The forward while-loop of silent_end_ind, with an explicit fuel bound.
Every iteration with a positive chunk advances the position by at least one
millisecond while the guard requires it to stay below the length, so the
fuel value sound.length + 1 used at the call site is never exhausted (see
fwdLoop_no_guard_at_result). -/
def fwdLoop (meas : Audio → ℚ) (sound : Audio) (thr : ℚ) (c : ℤ) :
    ℕ → ℤ → ℤ
  | 0, t => t
  | fuel + 1, t =>
    if fwdGuard meas sound thr c t then fwdLoop meas sound thr c fuel (t + c)
    else t

/-- The backward while-loop of silent_end_ind, with an explicit fuel bound.
Every iteration with a negative chunk lowers the position by at least one
millisecond while the guard requires it to stay positive, so the fuel value
sound.length + 1 used at the call site is never exhausted. -/
def bwdLoop (meas : Audio → ℚ) (sound : Audio) (thr : ℚ) (c : ℤ) :
    ℕ → ℤ → ℤ
  | 0, t => t
  | fuel + 1, t =>
    if bwdGuard meas sound thr c t then bwdLoop meas sound thr c fuel (t + c)
    else t

/-- silent_end_ind (process_audio.py lines 66-110).  The finiteness checks of
the Python source are vacuous over ℚ; the sign checks are kept.  A positive
chunk size scans forward from 0 and the result is clamped above by the
length; a negative chunk size scans backward from the length and the result
is clamped below by 0. -/
def silent_end_ind (meas : Audio → ℚ) (sound : Audio)
    (silence_threshold : ℚ) (chunk_size : ℤ) : Except String ℤ :=
  if ¬ silence_threshold < 0 then
    .error "silence_threshold must be negative number"
  else if chunk_size = 0 then
    .error "chunk_size must be a non-zero integer"
  else if 0 < chunk_size then
    .ok (min (fwdLoop meas sound silence_threshold chunk_size
          (sound.length + 1) 0) (sound.length : ℤ))
  else
    .ok (max (bwdLoop meas sound silence_threshold chunk_size
          (sound.length + 1) (sound.length : ℤ)) 0)

/-- Rational floor computed with flooring integer division (total and
executable). -/
def ratFloor (q : ℚ) : ℤ := q.num.fdiv q.den

/-- Python round applied to an exact Fraction: round half to even. -/
def pyRound (q : ℚ) : ℤ :=
  let f := ratFloor q
  let r := q - (f : ℚ)
  if r < 1 / 2 then f
  else if 1 / 2 < r then f + 1
  else if f % 2 = 0 then f else f + 1

/-- math.ceil on an exact rational. -/
def mathCeil (q : ℚ) : ℤ := -((-q).num.fdiv (-q).den)

/-- The iteration_chunk_len argument of process_song: either an int number
of milliseconds or a Fraction of the total duration. -/
inductive ChunkLen
  | int (n : ℤ)
  | frac (q : ℚ)
deriving DecidableEq

/-- Chunk resolution performed at process_audio.py lines 211-212: a Fraction
is replaced by max(round(fraction times duration), 1); an int is kept. -/
def resolveChunk : ChunkLen → ℕ → ℤ
  | .int n, _ => n
  | .frac q, len => max (pyRound (q * (len : ℚ))) 1

/-- Error taxonomy of a process_song run. -/
inductive PErr
  | valueError (msg : String)
  | typeError (msg : String)
  | attributeError (msg : String)
  | decodeError (msg : String)
  | meteringError (msg : String)
  | encodeError (msg : String)
deriving DecidableEq

/-- Leading-silence removal (process_audio.py lines 225-233): a forward scan
with the resolved chunk size followed by a conditional head slice.  A scan
result equal to 0 or to the length means no leading silence found or an
entirely silent clip and skips the slice. -/
def leadTrim (meas : Audio → ℚ) (thr : ℚ) (c : ℤ) (song : Audio) :
    Except PErr Audio :=
  match silent_end_ind meas song thr c with
  | .error m => .error (.valueError m)
  | .ok lead =>
    .ok (if lead ≠ 0 ∧ lead ≠ (song.length : ℤ) then
          pySlice song lead (song.length : ℤ)
        else song)

/-- Trailing-silence removal (lines 236-250): a backward scan with the
negated chunk size followed by a conditional tail slice, with the same
no-trim policy as the leading pass. -/
def tailTrim (meas : Audio → ℚ) (thr : ℚ) (c : ℤ) (song : Audio) :
    Except PErr Audio :=
  match silent_end_ind meas song thr (-c) with
  | .error m => .error (.valueError m)
  | .ok trail =>
    .ok (if trail ≠ 0 ∧ trail ≠ (song.length : ℤ) then
          pySlice song 0 trail
        else song)

/-- The silence-trimming portion of process_song (lines 219-250): the
leading pass, then the trailing pass on the possibly shrunk buffer. -/
def trimStage (meas : Audio → ℚ) (thr : ℚ) (c : ℤ) (song : Audio) :
    Except PErr Audio :=
  match leadTrim meas thr c song with
  | .error e => .error e
  | .ok song1 => tailTrim meas thr c song1

/-! ### Path name manipulation (pathlib operations used at lines 276 and 302)

Paths are strings; the operations below follow CPython pathlib semantics on
the final path component. -/

/-- Final component of a path. -/
def pathFinal (p : String) : String := (p.splitOn "/").getLastD ""

/-- Position of the last dot of a name, if any. -/
def lastDot (name : String) : Option ℕ :=
  ((List.range name.toList.length).filter
    (fun i => name.toList.getD i ' ' = '.')).getLast?

/-- pathlib suffix: from the last dot of the name, provided that dot is
neither leading nor trailing. -/
def pathSuffix (p : String) : String :=
  let name := pathFinal p
  match lastDot name with
  | some i =>
    if 0 < i ∧ i < name.toList.length - 1 then
      String.mk (name.toList.drop i)
    else ""
  | none => ""

/-- pathlib stem: the final component without its suffix. -/
def pathStem (p : String) : String :=
  let name := pathFinal p
  String.mk (name.toList.take (name.toList.length - (pathSuffix p).toList.length))

/-- pathlib with_name: replace the final component. -/
def pathWithName (p n : String) : String :=
  String.intercalate "/" ((p.splitOn "/").dropLast ++ [n])

/-- pathlib with_stem: keep the suffix, replace the stem. -/
def pathWithStem (p s : String) : String := pathWithName p (s ++ pathSuffix p)

/-- pathlib with_suffix: keep the stem, replace the suffix. -/
def pathWithSuffix (p suf : String) : String :=
  pathWithName p (pathStem p ++ suf)

/-- Target of the unconditional intermediate dump at line 276:
Path(input).with_stem(stem + ".pydub").with_suffix(".wav"). -/
def pydubDumpPath (p : String) : String :=
  pathWithSuffix (pathWithStem p (pathStem p ++ ".pydub")) ".wav"

/-- Target of the unconditional intermediate dump at line 302:
Path(input).with_stem(stem + ".sf").with_suffix(".wav"). -/
def sfDumpPath (p : String) : String :=
  pathWithSuffix (pathWithStem p (pathStem p ++ ".sf")) ".wav"

/-- Removal of the leading dot of a suffix string, as done at line 309. -/
def dropLeadingDot (s : String) : String :=
  match s.toList with
  | '.' :: rest => String.mk rest
  | l => String.mk l

/-! ### The process_song orchestrator (lines 116-316) -/

/-- An input or output object handed to process_song: a filesystem path or
an open byte stream (io.IOBase). -/
inductive AudioHandle
  | path (p : String)
  | stream (id : ℕ)
deriving DecidableEq

/-- isinstance(x, io.IOBase) for a handle. -/
def AudioHandle.isStream : AudioHandle → Bool
  | .path _ => false
  | .stream _ => true

/-- isinstance(x, io.IOBase) for an optional handle (None is not a stream). -/
def isStreamOpt : Option AudioHandle → Bool
  | some (.stream _) => true
  | _ => false

/-- Externally observable I/O performed by a run, in order. -/
inductive Effect
  | bitrateAnalyze (src : AudioHandle)
  | decodeCall (src : AudioHandle)
  | fileWrite (path : String)
  | subtypeProbe (src : AudioHandle)
  | exportTo (target : AudioHandle) (format : String) (bitrate : ℤ)
deriving DecidableEq

/-- The delegated capabilities consumed by process_song (decoding, loudness
metering, compression, bitrate statistics, encoding, path resolution), kept
abstract as an environment of functions.  Fallible capabilities return
Except. -/
structure Env where
  resolve : String → String
  bitrateMax : AudioHandle → ℚ
  decode : AudioHandle → Except String Audio
  dBFS : Audio → ℚ
  compress : Audio → Audio
  subtype : AudioHandle → String
  meter : Audio → Except String ℚ
  gain : Audio → ℚ → ℚ → Audio
  reread : Audio → Audio
  exportFn : Audio → AudioHandle → String → ℤ → Except String Unit

/-- Does silence_threshold pass its checks (lines 141-149)?  Finiteness is
vacuous over ℚ; None means the scanner default is used. -/
def thrOk : Option ℚ → Bool
  | none => true
  | some t => decide (t < 0)

/-- First chunk check (lines 152-157): a Fraction must be below 1:1. -/
def chunkLt1 : ChunkLen → Bool
  | .int _ => true
  | .frac q => decide (q < 1)

/-- Second chunk check (lines 159-161): the chunk must be positive. -/
def chunkPos : ChunkLen → Bool
  | .int n => decide (0 < n)
  | .frac q => decide (0 < q)

/-- The argument validation block of process_song (lines 130-165), returning
the message of the first failing assert, in source order. -/
def validateArgs (lufs : ℚ) (thr? : Option ℚ) (icl : ChunkLen) (pad : ℤ) :
    Option String :=
  if lufs ≤ 0 then
    if thrOk thr? then
      if chunkLt1 icl then
        if chunkPos icl then
          if 0 ≤ pad then none
          else some "silence_padding must be non-negative integer"
        else some "iteration_chunk_len must be positive integer or fraction"
      else some "iteration_chunk_len must be less than 1:1"
    else some "silence_threshold must be negative number"
  else some "lufs_normalize must be non-positive number"

/-- Message of the overwrite-refusal assert at lines 184-189. -/
def overwriteMsg : String :=
  "Must give permission to overwrite input file or supply different output path."

/-- Message of the TypeError raised by Path(input_audio) at line 276 when the
input is an open stream. -/
def pathTypeMsg : String :=
  "argument should be a str or an os.PathLike object, not a stream"

/-- Message of the AttributeError raised by output_audio.suffix at line 309
when the output is an open stream. -/
def suffixAttrMsg : String := "BytesIO object has no attribute suffix"

/-- Body of process_song after validation (lines 170-316).  Returns the
result together with the ordered list of I/O effects performed before
returning or raising. -/
def processBody (env : Env) (input : AudioHandle) (out0 : Option AudioHandle)
    (allow : Bool) (lufs : ℚ) (thr? : Option ℚ) (icl : ChunkLen) (pad : ℤ) :
    Except PErr (Option AudioHandle) × List Effect :=
  -- line 170: return_stream := output_audio is None and input is a stream
  let return_stream : Bool := decide (out0 = none) && input.isStream
  -- line 171: allocate a fresh in-memory stream in that case
  let out1 : Option AudioHandle :=
    if return_stream then some (.stream 0) else out0
  -- line 176: otherwise a missing output defaults to the input
  let outObj : AudioHandle := out1.getD input
  -- lines 173-189: overwrite check, only when neither side is a stream
  let violation : Bool :=
    if isStreamOpt out1 || input.isStream then false
    else
      match input, outObj with
      | .path pin, .path pout =>
        !(allow || decide (env.resolve pin ≠ env.resolve pout))
      | _, _ => false
  if violation then (.error (.valueError overwriteMsg), [])
  else
    -- lines 195-201: ffmpeg-bitrate-stats on the original source
    let target_bitrate := mathCeil (env.bitrateMax input)
    let tr2 := [Effect.bitrateAnalyze input, Effect.decodeCall input]
    -- line 207: decode (AudioSegment.from_file followed by normalize)
    match env.decode input with
    | .error m => (.error (.decodeError m), tr2)
    | .ok song0 =>
      -- lines 211-212: resolve a fractional chunk length once
      let chunk := resolveChunk icl song0.length
      -- lines 219-223: a None threshold is dropped from the kwargs, so the
      -- scanner default -50 applies
      let thr := thr?.getD (-50)
      -- lines 225-250: trim
      match trimStage env.dBFS thr chunk song0 with
      | .error e => (.error e, tr2)
      | .ok song1 =>
        -- lines 256-257: pad with silence on both sides
        let song2 := List.replicate pad.toNat 0 ++ song1 ++
          List.replicate pad.toNat 0
        -- line 265: compress
        let song3 := env.compress song2
        -- lines 270-280: in-memory wav export, then the unconditional dump
        -- at line 276; Path(input_audio) raises TypeError on a stream
        match input with
        | .stream _ => (.error (.typeError pathTypeMsg), tr2)
        | .path p =>
          let tr3 := tr2 ++
            [Effect.fileWrite (pydubDumpPath p), Effect.subtypeProbe input]
          -- line 280: read the wav back (delegated round trip)
          let data := song3
          let _subty := env.subtype input
          -- lines 286-287: BS.1770 integrated loudness
          match env.meter data with
          | .error m => (.error (.meteringError m), tr3)
          | .ok loudness =>
            -- line 290: loudness normalization gain
            let normalized := env.gain data loudness lufs
            -- lines 293-306: second in-memory wav, dump at line 302, reread
            let tr4 := tr3 ++ [Effect.fileWrite (sfDumpPath p)]
            let song4 := env.reread normalized
            -- lines 308-311: final export; output_audio.suffix raises
            -- AttributeError on a stream
            match outObj with
            | .stream _ => (.error (.attributeError suffixAttrMsg), tr4)
            | .path q =>
              let fmt := dropLeadingDot (pathSuffix q)
              let tr5 := tr4 ++
                [Effect.exportTo (.path q) fmt target_bitrate]
              match env.exportFn song4 (.path q) fmt target_bitrate with
              | .error m => (.error (.encodeError m), tr5)
              | .ok _ =>
                -- line 316
                ((if return_stream then Except.ok (some outObj)
                  else Except.ok none), tr5)

/-- process_song (lines 116-316): validate the arguments, then run the
pipeline body. -/
def process_song (env : Env) (input : AudioHandle)
    (out0 : Option AudioHandle) (allow : Bool) (lufs : ℚ)
    (thr? : Option ℚ) (icl : ChunkLen) (pad : ℤ) :
    Except PErr (Option AudioHandle) × List Effect :=
  match validateArgs lufs thr? icl pad with
  | some m => (.error (.valueError m), [])
  | none => processBody env input out0 allow lufs thr? icl pad

/-! ### Concrete environments used to evaluate the model -/

/-- A benign environment: every delegated capability succeeds and every
buffer measures at -60 dBFS. -/
def testEnv : Env :=
  { resolve := fun p => p
    bitrateMax := fun _ => 320
    decode := fun _ => .ok [0, 0, 0, 0]
    dBFS := fun _ => -60
    compress := fun l => l
    subtype := fun _ => "PCM_16"
    meter := fun _ => .ok (-20)
    gain := fun l _ _ => l
    reread := fun l => l
    exportFn := fun _ _ _ _ => .ok () }

/-- testEnv with a failing loudness meter. -/
def meterFailEnv : Env := { testEnv with meter := fun _ => .error "metering failed" }

/-- A dBFS measurement that reports -10 for a buffer containing a frame of
amplitude 9 and -60 otherwise. -/
def loudAt9 : Audio → ℚ :=
  fun l => if l.any (fun x => x = 9) then -10 else -60

/-! ## Theorems -/

theorem pydubIdx_in_range (len : ℕ) (v : ℤ) (h0 : 0 ≤ v)
    (h1 : v ≤ (len : ℤ)) : pydubIdx len v = v.toNat := by
  unfold pydubIdx
  simp only [min_eq_left h1]
  rw [if_neg (by omega), if_neg (by omega)]

theorem pySlice_in_range (s : Audio) (a b : ℤ) (h0 : 0 ≤ a) (hab : a ≤ b)
    (hb : b ≤ (s.length : ℤ)) :
    pySlice s a b = (s.drop a.toNat).take (b.toNat - a.toNat) := by
  unfold pySlice
  rw [pydubIdx_in_range _ _ h0 (le_trans hab hb),
    pydubIdx_in_range _ _ (le_trans h0 hab) hb]

theorem silent_end_ind_pos (meas : Audio → ℚ) (s : Audio) (thr : ℚ) (c : ℤ)
    (h1 : thr < 0) (hc : 0 < c) :
    silent_end_ind meas s thr c =
      .ok (min (fwdLoop meas s thr c (s.length + 1) 0) (s.length : ℤ)) := by
  unfold silent_end_ind
  rw [if_neg (not_not_intro h1), if_neg (by omega), if_pos hc]

theorem silent_end_ind_neg (meas : Audio → ℚ) (s : Audio) (thr : ℚ) (c : ℤ)
    (h1 : thr < 0) (hc : c < 0) :
    silent_end_ind meas s thr c =
      .ok (max (bwdLoop meas s thr c (s.length + 1) (s.length : ℤ)) 0) := by
  unfold silent_end_ind
  rw [if_neg (not_not_intro h1), if_neg (by omega), if_neg (by omega)]

/-- Characterization of the forward scan: with enough fuel the loop makes a
finite number of strict forward steps of width c, the guard holds at every
intermediate position and fails at the final one. -/
theorem fwdLoop_char (meas : Audio → ℚ) (sound : Audio) (thr : ℚ) (c : ℤ)
    (hc : 0 < c) :
    ∀ (fuel : ℕ) (t : ℤ), (((sound.length : ℤ) - t).toNat < fuel) →
    ∃ n : ℕ, fwdLoop meas sound thr c fuel t = t + (n : ℤ) * c ∧
      ¬ fwdGuard meas sound thr c (t + (n : ℤ) * c) ∧
      ∀ k : ℕ, k < n → fwdGuard meas sound thr c (t + (k : ℤ) * c) := by
  intro fuel
  induction fuel with
  | zero => intro t h; omega
  | succ f ih =>
    intro t h
    by_cases hg : fwdGuard meas sound thr c t
    · have hlt : t < (sound.length : ℤ) := hg.2
      obtain ⟨n, h1, h2, h3⟩ := ih (t + c) (by omega)
      refine ⟨n + 1, ?_, ?_, ?_⟩
      · rw [show fwdLoop meas sound thr c (f + 1) t =
            fwdLoop meas sound thr c f (t + c) by
              simp only [fwdLoop, if_pos hg], h1]
        push_cast; ring
      · have he : t + (((n : ℕ) + 1 : ℕ) : ℤ) * c = t + c + (n : ℤ) * c := by
          push_cast; ring
        rw [he]; exact h2
      · intro k hk
        match k with
        | 0 => simpa using hg
        | k' + 1 =>
          have hk' := h3 k' (by omega)
          have he : t + ((k' + 1 : ℕ) : ℤ) * c = t + c + (k' : ℤ) * c := by
            push_cast; ring
          rw [he]; exact hk'
    · exact ⟨0, by simp [fwdLoop, if_neg hg], by simpa using hg,
        fun k hk => absurd hk (by omega)⟩

/-- Characterization of the backward scan: with enough fuel the loop makes a
finite number of strict backward steps of width c (negative), the guard
holds at every intermediate position and fails at the final one. -/
theorem bwdLoop_char (meas : Audio → ℚ) (sound : Audio) (thr : ℚ) (c : ℤ)
    (hc : c < 0) :
    ∀ (fuel : ℕ) (t : ℤ), (t.toNat < fuel) →
    ∃ n : ℕ, bwdLoop meas sound thr c fuel t = t + (n : ℤ) * c ∧
      ¬ bwdGuard meas sound thr c (t + (n : ℤ) * c) ∧
      ∀ k : ℕ, k < n → bwdGuard meas sound thr c (t + (k : ℤ) * c) := by
  intro fuel
  induction fuel with
  | zero => intro t h; omega
  | succ f ih =>
    intro t h
    by_cases hg : bwdGuard meas sound thr c t
    · have hpos : 0 < t := hg.2
      obtain ⟨n, h1, h2, h3⟩ := ih (t + c) (by omega)
      refine ⟨n + 1, ?_, ?_, ?_⟩
      · rw [show bwdLoop meas sound thr c (f + 1) t =
            bwdLoop meas sound thr c f (t + c) by
              simp only [bwdLoop, if_pos hg], h1]
        push_cast; ring
      · have he : t + (((n : ℕ) + 1 : ℕ) : ℤ) * c = t + c + (n : ℤ) * c := by
          push_cast; ring
        rw [he]; exact h2
      · intro k hk
        match k with
        | 0 => simpa using hg
        | k' + 1 =>
          have hk' := h3 k' (by omega)
          have he : t + ((k' + 1 : ℕ) : ℤ) * c = t + c + (k' : ℤ) * c := by
            push_cast; ring
          rw [he]; exact hk'
    · exact ⟨0, by simp [bwdLoop, if_neg hg], by simpa using hg,
        fun k hk => absurd hk (by omega)⟩

/-- The forward scan as called by silent_end_ind: it starts at 0 with fuel
length + 1, so the characterization applies. -/
theorem fwdLoop_result (meas : Audio → ℚ) (sound : Audio) (thr : ℚ) (c : ℤ)
    (hc : 0 < c) :
    ∃ n : ℕ, fwdLoop meas sound thr c (sound.length + 1) 0 = (n : ℤ) * c ∧
      ¬ fwdGuard meas sound thr c ((n : ℤ) * c) ∧
      ∀ k : ℕ, k < n → fwdGuard meas sound thr c ((k : ℤ) * c) := by
  obtain ⟨n, h1, h2, h3⟩ :=
    fwdLoop_char meas sound thr c hc (sound.length + 1) 0 (by omega)
  exact ⟨n, by simpa using h1, by simpa using h2,
    fun k hk => by simpa using h3 k hk⟩

/-- The backward scan as called by silent_end_ind: it starts at the length
with fuel length + 1, so the characterization applies. -/
theorem bwdLoop_result (meas : Audio → ℚ) (sound : Audio) (thr : ℚ) (c : ℤ)
    (hc : c < 0) :
    ∃ n : ℕ, bwdLoop meas sound thr c (sound.length + 1) (sound.length : ℤ) =
        (sound.length : ℤ) + (n : ℤ) * c ∧
      ¬ bwdGuard meas sound thr c ((sound.length : ℤ) + (n : ℤ) * c) ∧
      ∀ k : ℕ, k < n →
        bwdGuard meas sound thr c ((sound.length : ℤ) + (k : ℤ) * c) := by
  exact bwdLoop_char meas sound thr c hc (sound.length + 1)
    (sound.length : ℤ) (by omega)

/-- C3: for every audio buffer, every finite threshold below zero and every
non-zero integer chunk size, silent_end_ind succeeds and returns an index in
the closed interval from 0 to the buffer length in milliseconds. -/
theorem claim_C3_scan_range (meas : Audio → ℚ) (sound : Audio) (thr : ℚ)
    (c : ℤ) (h1 : thr < 0) (h2 : c ≠ 0) :
    ∃ r : ℤ, silent_end_ind meas sound thr c = .ok r ∧
      0 ≤ r ∧ r ≤ (sound.length : ℤ) := by
  by_cases hc : 0 < c
  · rw [silent_end_ind_pos meas sound thr c h1 hc]
    obtain ⟨n, hF, -, -⟩ := fwdLoop_result meas sound thr c hc
    refine ⟨_, rfl, ?_, min_le_right _ _⟩
    rw [hF]
    have hn : (0 : ℤ) ≤ (n : ℤ) * c := by positivity
    exact le_min hn (by positivity)
  · have hc' : c < 0 := by omega
    rw [silent_end_ind_neg meas sound thr c h1 hc']
    obtain ⟨n, hB, -, -⟩ := bwdLoop_result meas sound thr c hc'
    refine ⟨_, rfl, le_max_right _ _, ?_⟩
    rw [hB]
    have hn : (n : ℤ) * c ≤ 0 :=
      mul_nonpos_iff.mpr (Or.inl ⟨Int.natCast_nonneg n, le_of_lt hc'⟩)
    exact max_le (by omega) (by positivity)

/-- Witness for C3 at a concrete input. -/
theorem claim_C3_scan_range_witness :
    ∃ r : ℤ, silent_end_ind (fun _ => -60) [0, 0, 0] (-50) 2 = .ok r ∧
      0 ≤ r ∧ r ≤ (([0, 0, 0] : Audio).length : ℤ) :=
  claim_C3_scan_range (fun _ => -60) [0, 0, 0] (-50) 2 (by norm_num)
    (by norm_num)

/-- C9: with a threshold below zero and a non-zero chunk size, the scanning
loop of silent_end_ind terminates by falsifying its guard: the loop result
is reached after finitely many strict steps toward the opposite end, the
guard (which bounds the position by the length going forward and by zero
going backward) holds at every intermediate position and fails at the final
one. -/
theorem claim_C9_scan_terminates (meas : Audio → ℚ) (sound : Audio)
    (thr : ℚ) (c : ℤ) (_h1 : thr < 0) (_h2 : c ≠ 0) :
    (0 < c → ∃ n : ℕ,
      fwdLoop meas sound thr c (sound.length + 1) 0 = (n : ℤ) * c ∧
      ¬ fwdGuard meas sound thr c ((n : ℤ) * c) ∧
      ∀ k : ℕ, k < n → fwdGuard meas sound thr c ((k : ℤ) * c)) ∧
    (c < 0 → ∃ n : ℕ,
      bwdLoop meas sound thr c (sound.length + 1) (sound.length : ℤ) =
        (sound.length : ℤ) + (n : ℤ) * c ∧
      ¬ bwdGuard meas sound thr c ((sound.length : ℤ) + (n : ℤ) * c) ∧
      ∀ k : ℕ, k < n →
        bwdGuard meas sound thr c ((sound.length : ℤ) + (k : ℤ) * c)) :=
  ⟨fun hc => fwdLoop_result meas sound thr c hc,
   fun hc => bwdLoop_result meas sound thr c hc⟩

/-- Witness for C9 at a concrete input. -/
theorem claim_C9_scan_terminates_witness :
    (0 < (2 : ℤ) → ∃ n : ℕ,
      fwdLoop (fun _ => -60) [0, 0, 0] (-50) 2 (([0, 0, 0] : Audio).length + 1) 0 =
        (n : ℤ) * 2 ∧
      ¬ fwdGuard (fun _ => -60) [0, 0, 0] (-50) 2 ((n : ℤ) * 2) ∧
      ∀ k : ℕ, k < n → fwdGuard (fun _ => -60) [0, 0, 0] (-50) 2 ((k : ℤ) * 2)) ∧
    ((2 : ℤ) < 0 → ∃ n : ℕ,
      bwdLoop (fun _ => -60) [0, 0, 0] (-50) 2 (([0, 0, 0] : Audio).length + 1)
          (([0, 0, 0] : Audio).length : ℤ) =
        (([0, 0, 0] : Audio).length : ℤ) + (n : ℤ) * 2 ∧
      ¬ bwdGuard (fun _ => -60) [0, 0, 0] (-50) 2
          ((([0, 0, 0] : Audio).length : ℤ) + (n : ℤ) * 2) ∧
      ∀ k : ℕ, k < n → bwdGuard (fun _ => -60) [0, 0, 0] (-50) 2
          ((([0, 0, 0] : Audio).length : ℤ) + (k : ℤ) * 2)) :=
  claim_C9_scan_terminates (fun _ => -60) [0, 0, 0] (-50) 2 (by norm_num)
    (by norm_num)

/-- On an entirely silent buffer the forward scan of silent_end_ind returns
the full length. -/
theorem silent_end_ind_all_silent_fwd (meas : Audio → ℚ) (sound : Audio)
    (thr : ℚ) (c : ℤ) (h1 : thr < 0) (hc : 0 < c)
    (hs : ∀ a b : ℤ, meas (pySlice sound a b) < thr) :
    silent_end_ind meas sound thr c = .ok (sound.length : ℤ) := by
  rw [silent_end_ind_pos meas sound thr c h1 hc]
  obtain ⟨n, hF, hng, -⟩ := fwdLoop_result meas sound thr c hc
  have hlen : (sound.length : ℤ) ≤ (n : ℤ) * c := by
    by_contra hlt
    exact hng ⟨hs _ _, by omega⟩
  rw [hF, min_eq_right hlen]

/-- On an entirely silent buffer the backward scan of silent_end_ind returns
zero. -/
theorem silent_end_ind_all_silent_bwd (meas : Audio → ℚ) (sound : Audio)
    (thr : ℚ) (c : ℤ) (h1 : thr < 0) (hc : c < 0)
    (hs : ∀ a b : ℤ, meas (pySlice sound a b) < thr) :
    silent_end_ind meas sound thr c = .ok 0 := by
  rw [silent_end_ind_neg meas sound thr c h1 hc]
  obtain ⟨n, hB, hng, -⟩ := bwdLoop_result meas sound thr c hc
  have hle : (sound.length : ℤ) + (n : ℤ) * c ≤ 0 := by
    by_contra hlt
    exact hng ⟨hs _ _, by omega⟩
  rw [hB, max_eq_right hle]

/-- C4: on a buffer whose every chunk measures below the silence threshold,
the trimming step of process_song leaves the buffer unchanged at both
edges: the forward scan returns the full length and the backward scan
returns zero, both of which the stage treats as a no-trim signal, so the
buffer is never trimmed to zero length. -/
theorem claim_C4_all_silent_unchanged (meas : Audio → ℚ) (sound : Audio)
    (thr : ℚ) (c : ℤ) (h1 : thr < 0) (hc : 0 < c)
    (hs : ∀ a b : ℤ, meas (pySlice sound a b) < thr) :
    trimStage meas thr c sound = .ok sound := by
  unfold trimStage
  have hL : leadTrim meas thr c sound = .ok sound := by
    unfold leadTrim
    rw [silent_end_ind_all_silent_fwd meas sound thr c h1 hc hs]
    simp
  simp only [hL]
  unfold tailTrim
  rw [silent_end_ind_all_silent_bwd meas sound thr (-c) h1 (by omega) hs]
  simp

/-- Witness for C4 at a concrete input. -/
theorem claim_C4_all_silent_unchanged_witness :
    trimStage (fun _ => -60) (-50) 1 [0, 0, 0] = .ok [0, 0, 0] :=
  claim_C4_all_silent_unchanged (fun _ => -60) [0, 0, 0] (-50) 1
    (by norm_num) (by norm_num) (fun _ _ => by norm_num)

/-- When the first chunk of a buffer is not silent, the forward scan stops
immediately and silent_end_ind returns 0. -/
theorem silent_end_ind_fwd_zero (meas : Audio → ℚ) (song1 : Audio)
    (thr : ℚ) (c : ℤ) (h1 : thr < 0) (hc : 0 < c)
    (hloud : ¬ meas (pySlice song1 0 c) < thr) :
    silent_end_ind meas song1 thr c = .ok 0 := by
  rw [silent_end_ind_pos meas song1 thr c h1 hc]
  obtain ⟨n, hF, hng, hall⟩ := fwdLoop_result meas song1 thr c hc
  have hn0 : n = 0 := by
    by_contra hne
    have hg := hall 0 (by omega)
    rw [show ((0 : ℕ) : ℤ) * c = 0 by simp] at hg
    exact hloud (by simpa using hg.1)
  rw [hn0] at hF
  simp only [Nat.cast_zero, zero_mul] at hF
  rw [hF, min_eq_left (Int.natCast_nonneg song1.length)]

/-- A trim pass that starts with a no-op forward scan and whose backward
scan returns 0 or the full length leaves the buffer unchanged. -/
theorem trimStage_no_op (meas : Audio → ℚ) (song1 : Audio) (thr : ℚ) (c : ℤ)
    (hfwd : silent_end_ind meas song1 thr c = .ok 0)
    (trail : ℤ) (hbwd : silent_end_ind meas song1 thr (-c) = .ok trail)
    (htr : trail = 0 ∨ trail = (song1.length : ℤ)) :
    trimStage meas thr c song1 = .ok song1 := by
  unfold trimStage
  have hL : leadTrim meas thr c song1 = .ok song1 := by
    unfold leadTrim
    rw [hfwd]
    simp
  simp only [hL]
  unfold tailTrim
  rw [hbwd]
  rcases htr with h | h <;> simp [h]

/-- A successful trim pass determines an intermediate buffer s1 (the result
of the leading pass) and the trailing scan result on it, with its range and
the guard falsification at a positive stopping position. -/
theorem trimStage_ok_decomp (meas : Audio → ℚ) (song : Audio) (thr : ℚ)
    (c : ℤ) (h1 : thr < 0) (hc : 0 < c) (song1 : Audio)
    (htrim : trimStage meas thr c song = .ok song1) :
    ∃ (s1 : Audio) (trail1 : ℤ),
      silent_end_ind meas s1 thr (-c) = .ok trail1 ∧
      0 ≤ trail1 ∧ trail1 ≤ (s1.length : ℤ) ∧
      (0 < trail1 → ¬ bwdGuard meas s1 thr (-c) trail1) ∧
      song1 = (if trail1 ≠ 0 ∧ trail1 ≠ (s1.length : ℤ) then
        pySlice s1 0 trail1 else s1) := by
  have hcneg : -c < 0 := by omega
  unfold trimStage at htrim
  cases hL : leadTrim meas thr c song with
  | error e => rw [hL] at htrim; exact absurd htrim (by simp)
  | ok s1 =>
    rw [hL] at htrim
    simp only [] at htrim
    unfold tailTrim at htrim
    cases hT : silent_end_ind meas s1 thr (-c) with
    | error m => rw [hT] at htrim; exact absurd htrim (by simp)
    | ok trail =>
      rw [hT] at htrim
      simp only [] at htrim
      have hform := (Except.ok.inj htrim).symm
      have hT' := silent_end_ind_neg meas s1 thr (-c) h1 hcneg
      rw [hT] at hT'
      have htraileq : trail =
          max (bwdLoop meas s1 thr (-c) (s1.length + 1) (s1.length : ℤ)) 0 :=
        Except.ok.inj hT'
      obtain ⟨m, hBm, hng, -⟩ := bwdLoop_result meas s1 thr (-c) hcneg
      have hmle : (m : ℤ) * (-c) ≤ 0 := by nlinarith [Int.natCast_nonneg m]
      refine ⟨s1, trail, hT, ?_, ?_, ?_, hform⟩
      · rw [htraileq]; exact le_max_right _ _
      · rw [htraileq, hBm]
        exact max_le (by linarith) (Int.natCast_nonneg _)
      · intro hpos
        rw [htraileq] at hpos ⊢
        have hBpos :
            0 < bwdLoop meas s1 thr (-c) (s1.length + 1) (s1.length : ℤ) := by
          by_contra hB
          rw [max_eq_right (by omega)] at hpos
          exact lt_irrefl 0 hpos
        rw [max_eq_left (le_of_lt hBpos), hBm]
        exact hng

/-- Slicing up to an in-range bound is a take. -/
theorem pySlice_zero_take (s : Audio) (b : ℤ) (h0 : 0 ≤ b)
    (hb : b ≤ (s.length : ℤ)) : pySlice s 0 b = s.take b.toNat := by
  rw [pySlice_in_range s 0 b le_rfl h0 hb]
  simp

/-- A slice of an initial segment that stays inside that segment equals the
slice of the original list. -/
theorem pySlice_take_eq (s : Audio) (n : ℕ) (hn : n ≤ s.length) (a : ℤ)
    (h0 : 0 ≤ a) (ha : a ≤ (n : ℤ)) :
    pySlice (s.take n) a (n : ℤ) = pySlice s a (n : ℤ) := by
  have hlt : (s.take n).length = n := by rw [List.length_take]; omega
  have hcast : ((n : ℤ)).toNat = n := by omega
  rw [pySlice_in_range (s.take n) a (n : ℤ) h0 ha (by rw [hlt]),
    pySlice_in_range s a (n : ℤ) h0 ha (by exact_mod_cast hn),
    hcast, List.drop_take, List.take_take, min_self]

/-- C5: when real audio content begins within the first chunk of the
once-trimmed buffer, a second trim pass with the same threshold and chunk
size leaves the buffer unchanged, so trimming twice equals trimming once. -/
theorem claim_C5_trim_idempotent (meas : Audio → ℚ) (song : Audio)
    (thr : ℚ) (c : ℤ) (h1 : thr < 0) (hc : 0 < c) (song1 : Audio)
    (htrim : trimStage meas thr c song = .ok song1)
    (hloud : ¬ meas (pySlice song1 0 c) < thr) :
    trimStage meas thr c song1 = .ok song1 := by
  have hcneg : -c < 0 := by omega
  have hfwd2 := silent_end_ind_fwd_zero meas song1 thr c h1 hc hloud
  obtain ⟨s1, trail1, hsei, htr0, htrle, hgf, hform⟩ :=
    trimStage_ok_decomp meas song thr c h1 hc song1 htrim
  by_cases hcase : trail1 ≠ 0 ∧ trail1 ≠ (s1.length : ℤ)
  · -- the first pass trimmed the tail at trail1
    obtain ⟨htne0, htnelen⟩ := hcase
    have htrpos : 0 < trail1 := lt_of_le_of_ne htr0 (Ne.symm htne0)
    have htrlt : trail1 < (s1.length : ℤ) := lt_of_le_of_ne htrle htnelen
    rw [if_pos ⟨htne0, htnelen⟩] at hform
    have hslice : song1 = s1.take trail1.toNat := by
      rw [hform, pySlice_zero_take s1 trail1 htr0 (le_of_lt htrlt)]
    have htn : trail1.toNat ≤ s1.length := by omega
    have hlen1 : (song1.length : ℤ) = trail1 := by
      have hlen : song1.length = trail1.toNat := by
        rw [hslice, List.length_take, Nat.min_eq_left htn]
      omega
    have hchunk := hgf htrpos
    obtain ⟨m2, hBm2, hngm2, hallm2⟩ := bwdLoop_result meas song1 thr (-c) hcneg
    have hbwd2 := silent_end_ind_neg meas song1 thr (-c) h1 hcneg
    have hres :
        max (bwdLoop meas song1 thr (-c) (song1.length + 1)
          (song1.length : ℤ)) 0 = 0 ∨
        max (bwdLoop meas song1 thr (-c) (song1.length + 1)
          (song1.length : ℤ)) 0 = (song1.length : ℤ) := by
      by_cases hcl : c ≤ trail1
      · -- the pass-2 first backward chunk is the pass-1 stopping chunk
        have hchunk2 :
            pySlice song1 ((song1.length : ℤ) + -c) (song1.length : ℤ) =
            pySlice s1 (trail1 + -c) trail1 := by
          rw [hlen1, hslice]
          have hcast : ((trail1.toNat : ℕ) : ℤ) = trail1 := by omega
          rw [← hcast]
          exact pySlice_take_eq s1 trail1.toNat htn _ (by omega) (by omega)
        have hg2 : ¬ bwdGuard meas song1 thr (-c) (song1.length : ℤ) := by
          intro hg
          exact hchunk ⟨hchunk2 ▸ hg.1, htrpos⟩
        have hm2 : m2 = 0 := by
          by_contra hne
          have hgk := hallm2 0 (by omega)
          simp only [Nat.cast_zero, zero_mul, add_zero] at hgk
          exact hg2 hgk
        right
        rw [hBm2, hm2]
        simp only [Nat.cast_zero, zero_mul, add_zero]
        exact max_eq_left (Int.natCast_nonneg _)
      · -- the chunk is wider than the trimmed buffer
        by_cases hm20 : m2 = 0
        · right
          rw [hBm2, hm20]
          simp only [Nat.cast_zero, zero_mul, add_zero]
          exact max_eq_left (Int.natCast_nonneg _)
        · have hm21 : m2 = 1 := by
            by_contra hne
            have hgk := hallm2 1 (by omega)
            have h2 := hgk.2
            simp only [Nat.cast_one, one_mul] at h2
            omega
          left
          rw [hBm2, hm21]
          have hle0 : (song1.length : ℤ) + ((1 : ℕ) : ℤ) * (-c) ≤ 0 := by
            simp only [Nat.cast_one, one_mul]
            omega
          exact max_eq_right hle0
    exact trimStage_no_op meas song1 thr c hfwd2 _ hbwd2 hres
  · -- the first pass did not trim the tail: song1 is s1 itself
    rw [if_neg hcase] at hform
    have h0len : trail1 = 0 ∨ trail1 = (s1.length : ℤ) := by
      rcases not_and_or.mp hcase with h | h
      · exact Or.inl (not_not.mp h)
      · exact Or.inr (not_not.mp h)
    rw [hform] at hfwd2 ⊢
    exact trimStage_no_op meas s1 thr c hfwd2 trail1 hsei h0len

/-- Witness for C5 at a concrete input: one pass trims [0, 9, 9, 0] to
[9, 9], whose first chunk is loud, and a second pass is the identity. -/
theorem claim_C5_trim_idempotent_witness :
    trimStage loudAt9 (-50) 1 [9, 9] = .ok [9, 9] :=
  claim_C5_trim_idempotent loudAt9 [0, 9, 9, 0] (-50) 1 (by norm_num)
    (by norm_num) [9, 9] (by decide) (by decide)

/-- With a negative threshold and a non-zero chunk the scanner never raises. -/
theorem silent_end_ind_isOk (meas : Audio → ℚ) (s : Audio) (thr : ℚ) (c : ℤ)
    (h1 : thr < 0) (hc : c ≠ 0) :
    ∃ r, silent_end_ind meas s thr c = .ok r := by
  by_cases h : 0 < c
  · exact ⟨_, silent_end_ind_pos meas s thr c h1 h⟩
  · exact ⟨_, silent_end_ind_neg meas s thr c h1 (by omega)⟩

theorem leadTrim_is_ok (meas : Audio → ℚ) (thr : ℚ) (c : ℤ) (song : Audio)
    (h1 : thr < 0) (hc : c ≠ 0) :
    ∃ s1, leadTrim meas thr c song = .ok s1 := by
  obtain ⟨lead, hl⟩ := silent_end_ind_isOk meas song thr c h1 hc
  unfold leadTrim
  simp only [hl]
  exact ⟨_, rfl⟩

theorem tailTrim_is_ok (meas : Audio → ℚ) (thr : ℚ) (c : ℤ) (song : Audio)
    (h1 : thr < 0) (hc : c ≠ 0) :
    ∃ s1, tailTrim meas thr c song = .ok s1 := by
  obtain ⟨trail, ht⟩ := silent_end_ind_isOk meas song thr (-c) h1 (by omega)
  unfold tailTrim
  simp only [ht]
  exact ⟨_, rfl⟩

theorem trimStage_is_ok (meas : Audio → ℚ) (thr : ℚ) (c : ℤ) (song : Audio)
    (h1 : thr < 0) (hc : c ≠ 0) :
    ∃ s2, trimStage meas thr c song = .ok s2 := by
  obtain ⟨s1, hL⟩ := leadTrim_is_ok meas thr c song h1 hc
  obtain ⟨s2, hT⟩ := tailTrim_is_ok meas thr c s1 h1 hc
  refine ⟨s2, ?_⟩
  unfold trimStage
  simp only [hL]
  exact hT

/-- A validation failure makes process_song return the error with an empty
effect trace. -/
theorem process_song_of_validate_some (env : Env) (input : AudioHandle)
    (out0 : Option AudioHandle) (allow : Bool) (lufs : ℚ) (thr? : Option ℚ)
    (icl : ChunkLen) (pad : ℤ) (msg : String)
    (h : validateArgs lufs thr? icl pad = some msg) :
    process_song env input out0 allow lufs thr? icl pad =
      (.error (.valueError msg), []) := by
  unfold process_song
  rw [h]

/-- C1 (evaluates the code at the failing input of the claim): a run over
the path song.mp3 whose loudness-metering stage fails has already performed
the unconditional intermediate dump of line 276, so the failed run leaves
the artifact song.pydub.wav on disk. -/
theorem claim_C1_failed_run_leaves_dump :
    process_song meterFailEnv (.path "song.mp3") (some (.path "out.wav"))
      false (-16) none (.int 1) 0 =
    (.error (.meteringError "metering failed"),
      [.bitrateAnalyze (.path "song.mp3"), .decodeCall (.path "song.mp3"),
       .fileWrite (pydubDumpPath "song.mp3"),
       .subtypeProbe (.path "song.mp3")]) ∧
    Effect.fileWrite (pydubDumpPath "song.mp3") ∈
      (process_song meterFailEnv (.path "song.mp3") (some (.path "out.wav"))
        false (-16) none (.int 1) 0).2 := by
  have h : process_song meterFailEnv (.path "song.mp3")
      (some (.path "out.wav")) false (-16) none (.int 1) 0 =
    (.error (.meteringError "metering failed"),
      [.bitrateAnalyze (.path "song.mp3"), .decodeCall (.path "song.mp3"),
       .fileWrite (pydubDumpPath "song.mp3"),
       .subtypeProbe (.path "song.mp3")]) := rfl
  refine ⟨h, ?_⟩
  rw [h]
  simp

/-- C2 (evaluates the code at the failing input of the claim): a run whose
input is an open byte stream and whose output is omitted does allocate a
fresh stream, but then raises TypeError at the Path(input_audio) call of
line 276, after the bitrate-analysis and decode calls and before any result
is written to or returned through the allocated stream. -/
theorem claim_C2_stream_run_raises :
    process_song testEnv (.stream 7) none false (-16) none (.int 1) 0 =
    (.error (.typeError pathTypeMsg),
      [.bitrateAnalyze (.stream 7), .decodeCall (.stream 7)]) := by
  decide

/-- C6: running process_song with a fractional chunk specification f in
(0, 1) is the same as running it with the integer chunk size
max(round(f * D), 1), where D is the duration of the decoded buffer in
milliseconds; the resolved width is shared by the forward and backward
scans, which receive it with opposite signs inside the trim stage. -/
theorem claim_C6_fractional_chunk (env : Env) (input : AudioHandle)
    (out0 : Option AudioHandle) (allow : Bool) (lufs : ℚ) (thr? : Option ℚ)
    (pad : ℤ) (f : ℚ) (hf0 : 0 < f) (hf1 : f < 1)
    (song : Audio) (hdec : env.decode input = .ok song) :
    process_song env input out0 allow lufs thr? (.frac f) pad =
    process_song env input out0 allow lufs thr?
      (.int (max (pyRound (f * (song.length : ℚ))) 1)) pad := by
  have hval : validateArgs lufs thr? (.frac f) pad =
      validateArgs lufs thr?
        (.int (max (pyRound (f * (song.length : ℚ))) 1)) pad := by
    unfold validateArgs
    have hA : chunkLt1 (.frac f) = true := by simp [chunkLt1, hf1]
    have hB : chunkPos (.frac f) = true := by simp [chunkPos, hf0]
    have hC : chunkLt1 (.int (max (pyRound (f * (song.length : ℚ))) 1)) =
        true := rfl
    have hD : chunkPos (.int (max (pyRound (f * (song.length : ℚ))) 1)) =
        true := by
      simp only [chunkPos, decide_eq_true_eq]
      exact lt_of_lt_of_le one_pos (le_max_right _ _)
    rw [hA, hB, hC, hD]
  unfold process_song
  rw [hval]
  cases hv : validateArgs lufs thr?
      (.int (max (pyRound (f * (song.length : ℚ))) 1)) pad with
  | some m => rfl
  | none =>
    unfold processBody
    simp only [hdec, resolveChunk]

/-- Witness for C6 at a concrete input. -/
theorem claim_C6_fractional_chunk_witness :
    process_song testEnv (.path "a.mp3") none true (-16) none
      (.frac (1 / 2)) 0 =
    process_song testEnv (.path "a.mp3") none true (-16) none
      (.int (max (pyRound ((1 / 2 : ℚ) *
        (([0, 0, 0, 0] : Audio).length : ℚ))) 1)) 0 :=
  claim_C6_fractional_chunk testEnv (.path "a.mp3") none true (-16) none 0
    (1 / 2) (by norm_num) (by norm_num) [0, 0, 0, 0] rfl

/-- C7: every representable invalid configuration value (positive
lufs_normalize, non-negative silence_threshold, zero integer chunk,
fractional chunk outside the open unit interval, negative silence_padding)
makes process_song raise a configuration ValueError with an empty effect
trace, before the bitrate-measurement and decode calls, so no I/O is
performed against the input. -/
theorem claim_C7_config_rejected_before_io (env : Env) (input : AudioHandle)
    (out0 : Option AudioHandle) (allow : Bool) (lufs : ℚ) (thr? : Option ℚ)
    (icl : ChunkLen) (pad : ℤ)
    (hbad : 0 < lufs ∨ (∃ t, thr? = some t ∧ 0 ≤ t) ∨ icl = .int 0 ∨
      (∃ q, icl = .frac q ∧ (q ≤ 0 ∨ 1 ≤ q)) ∨ pad < 0) :
    ∃ msg, process_song env input out0 allow lufs thr? icl pad =
      (.error (.valueError msg), []) := by
  have hval : ∃ msg, validateArgs lufs thr? icl pad = some msg := by
    unfold validateArgs
    split_ifs with h1 h2 h3 h4 h5
    · exfalso
      rcases hbad with h | ⟨t, ht, h⟩ | h | ⟨q, hq, h⟩ | h
      · linarith
      · subst ht
        simp only [thrOk, decide_eq_true_eq] at h2
        linarith
      · subst h
        simp [chunkPos] at h4
      · subst hq
        simp only [chunkLt1, decide_eq_true_eq] at h3
        simp only [chunkPos, decide_eq_true_eq] at h4
        rcases h with h | h <;> linarith
      · omega
    all_goals exact ⟨_, rfl⟩
  obtain ⟨msg, hmsg⟩ := hval
  exact ⟨msg, process_song_of_validate_some env input out0 allow lufs thr?
    icl pad msg hmsg⟩

/-- Witness for C7 at a concrete input (positive LUFS target). -/
theorem claim_C7_config_rejected_before_io_witness :
    ∃ msg, process_song testEnv (.path "a.mp3") (some (.path "b.wav"))
      false 3 none (.int 1) 0 = (.error (.valueError msg), []) :=
  claim_C7_config_rejected_before_io testEnv (.path "a.mp3")
    (some (.path "b.wav")) false 3 none (.int 1) 0 (Or.inl (by norm_num))

/-- C8: with a valid configuration, an input path and an output path that
resolve to the same location and no overwrite permission, process_song
raises the overwrite-refusal ValueError with an empty effect trace: no
decode, no bitrate measurement, no file created or modified. -/
theorem claim_C8_overwrite_refused (env : Env) (p q : String) (lufs : ℚ)
    (thr? : Option ℚ) (icl : ChunkLen) (pad : ℤ)
    (h1 : lufs ≤ 0) (h2 : thrOk thr? = true) (h3 : chunkLt1 icl = true)
    (h4 : chunkPos icl = true) (h5 : 0 ≤ pad)
    (hq : env.resolve p = env.resolve q) :
    process_song env (.path p) (some (.path q)) false lufs thr? icl pad =
      (.error (.valueError overwriteMsg), []) := by
  have hvalnone : validateArgs lufs thr? icl pad = none := by
    unfold validateArgs
    rw [if_pos h1, if_pos h2, if_pos h3, if_pos h4, if_pos h5]
  unfold process_song
  rw [hvalnone]
  unfold processBody
  simp [AudioHandle.isStream, isStreamOpt, hq]

/-- Witness for C8 at a concrete input. -/
theorem claim_C8_overwrite_refused_witness :
    process_song testEnv (.path "song.mp3") (some (.path "song.mp3")) false
      (-16) none (.int 1) 0 = (.error (.valueError overwriteMsg), []) :=
  claim_C8_overwrite_refused testEnv "song.mp3" "song.mp3" (-16) none
    (.int 1) 0 (by norm_num) rfl rfl rfl (by norm_num) rfl

/-- C10: with a valid configuration and an input path but no output, the
output defaults to the input path itself: without overwrite permission the
call raises the overwrite refusal with no effects, and with permission the
run completes, returns None and its final export targets the input path in
place. -/
theorem claim_C10_default_output_in_place (env : Env) (p : String)
    (lufs : ℚ) (thr? : Option ℚ) (icl : ChunkLen) (pad : ℤ)
    (h1 : lufs ≤ 0) (h2 : thrOk thr? = true) (h3 : chunkLt1 icl = true)
    (h4 : chunkPos icl = true) (h5 : 0 ≤ pad)
    (song : Audio) (hdec : env.decode (.path p) = .ok song)
    (hmet : ∀ l, ∃ v, env.meter l = .ok v)
    (hexp : ∀ b t fm k, env.exportFn b t fm k = .ok ()) :
    process_song env (.path p) none false lufs thr? icl pad =
      (.error (.valueError overwriteMsg), []) ∧
    process_song env (.path p) none true lufs thr? icl pad =
      (.ok none,
       [.bitrateAnalyze (.path p), .decodeCall (.path p),
        .fileWrite (pydubDumpPath p), .subtypeProbe (.path p),
        .fileWrite (sfDumpPath p),
        .exportTo (.path p) (dropLeadingDot (pathSuffix p))
          (mathCeil (env.bitrateMax (.path p)))]) := by
  have hvalnone : validateArgs lufs thr? icl pad = none := by
    unfold validateArgs
    rw [if_pos h1, if_pos h2, if_pos h3, if_pos h4, if_pos h5]
  have hthr : thr?.getD (-50) < 0 := by
    cases thr? with
    | none => norm_num
    | some t =>
      simp only [thrOk, decide_eq_true_eq] at h2
      simpa using h2
  have hchunk : resolveChunk icl song.length ≠ 0 := by
    cases icl with
    | int n =>
      simp only [chunkPos, decide_eq_true_eq] at h4
      simp only [resolveChunk]
      omega
    | frac fq =>
      simp only [resolveChunk]
      have : (0 : ℤ) < max (pyRound (fq * (song.length : ℚ))) 1 :=
        lt_of_lt_of_le one_pos (le_max_right _ _)
      omega
  constructor
  · unfold process_song
    rw [hvalnone]
    unfold processBody
    simp [AudioHandle.isStream, isStreamOpt]
  · unfold process_song
    rw [hvalnone]
    obtain ⟨s2, hTr⟩ := trimStage_is_ok env.dBFS (thr?.getD (-50))
      (resolveChunk icl song.length) song hthr hchunk
    obtain ⟨v, hv⟩ := hmet (env.compress
      (List.replicate pad.toNat 0 ++ (s2 ++ List.replicate pad.toNat 0)))
    unfold processBody
    simp [AudioHandle.isStream, isStreamOpt, hdec, hTr, hv, hexp]

/-- Witness for C10 at a concrete input. -/
theorem claim_C10_default_output_in_place_witness :
    process_song testEnv (.path "a.mp3") none false (-16) none (.int 1) 0 =
      (.error (.valueError overwriteMsg), []) ∧
    process_song testEnv (.path "a.mp3") none true (-16) none (.int 1) 0 =
      (.ok none,
       [.bitrateAnalyze (.path "a.mp3"), .decodeCall (.path "a.mp3"),
        .fileWrite (pydubDumpPath "a.mp3"), .subtypeProbe (.path "a.mp3"),
        .fileWrite (sfDumpPath "a.mp3"),
        .exportTo (.path "a.mp3") (dropLeadingDot (pathSuffix "a.mp3"))
          (mathCeil (testEnv.bitrateMax (.path "a.mp3")))]) :=
  claim_C10_default_output_in_place testEnv "a.mp3" (-16) none (.int 1) 0
    (by norm_num) rfl rfl rfl (by norm_num) [0, 0, 0, 0] rfl
    (fun _ => ⟨-20, rfl⟩) (fun _ _ _ _ => rfl)

end StandardizeSong
